import Mathlib

/-!
Shallow embedding of the order matching engine in
`app/services/matching.py` (class `MatchingEngine`) together with the data
model of `app/models/trading.py`.

Modelling conventions:
* Decimal prices and amounts (`DecimalField(max_digits=20, decimal_places=8)`)
  are embedded as exact rationals `ℚ`; Python `Decimal` arithmetic on these
  fields (`+`, `-`, `min`, comparisons) is exact, so `ℚ` is faithful.
* `created_at` timestamps are `Nat` (ordered, as `DatetimeField`).
* Database ids are `Nat`.
* Websocket broadcasting (`broadcast_trade`, `broadcast_order_book`) carries
  no engine state and is dropped; the cache read in `get_order_book` is
  modelled on its miss path (the cached value is itself a previously computed
  snapshot with a 1s expiry, so the computed snapshot is the authoritative
  content).
* Tortoise ORM `Model.__eq__` compares `type` and primary key, so
  `order in self.active_orders` / `active_orders.remove(order)` in
  `cancel_order` operate by id; we model them that way.
-/

namespace Matching

/-- `OrderType` from `app/models/trading.py`. -/
inductive OrderType where
  | buy
  | sell
deriving DecidableEq, Repr

/-- `OrderStatus` from `app/models/trading.py`. -/
inductive OrderStatus where
  | pending
  | partiallyFilled
  | filled
  | cancelled
deriving DecidableEq, Repr

/-- The `Order` model (`app/models/trading.py`): id, owning user, symbol,
side, price, amount, filled amount, status, creation time. -/
structure Order where
  id : Nat
  userId : Nat
  symbol : String
  order_type : OrderType
  price : ℚ
  amount : ℚ
  filled_amount : ℚ
  status : OrderStatus
  created_at : Nat
deriving DecidableEq, Repr

/-- The `Trade` model (`app/models/trading.py`): symbol, buyer/seller user
ids, execution price, executed amount, references to the buy and sell
orders. -/
structure Trade where
  symbol : String
  buyerId : Nat
  sellerId : Nat
  price : ℚ
  amount : ℚ
  buyOrderId : Nat
  sellOrderId : Nat
deriving DecidableEq, Repr

/-- The `OrderBook` model (`app/models/trading.py`): per-symbol aggregates.
`last_price`, `high_24h`, `low_24h` are nullable (`null=True`);
`volume_24h` defaults to `0`. -/
structure OrderBook where
  symbol : String
  last_price : Option ℚ
  volume_24h : ℚ
  high_24h : Option ℚ
  low_24h : Option ℚ
deriving DecidableEq, Repr

/-- A fresh `OrderBook` row as created by `OrderBook.get_or_create(symbol)`
with the model's field defaults. -/
def OrderBook.fresh (symbol : String) : OrderBook :=
  { symbol := symbol
    last_price := none
    volume_24h := 0
    high_24h := none
    low_24h := none }

/-- Engine state: `self.active_orders` (the in-memory resting list, in
insertion order), the persisted `orders` table, the persisted `trades`
table, and the persisted `order_books` table (keyed by symbol). -/
structure EngineState where
  active_orders : List Order
  db_orders : List Order
  db_trades : List Trade
  db_books : List OrderBook
deriving Repr

/-- `OrderBook.get_or_create(symbol=symbol)`: the stored row for `symbol`,
or a fresh one with defaults. -/
def getOrCreateBook (books : List OrderBook) (symbol : String) : OrderBook :=
  match books.find? (fun b => b.symbol == symbol) with
  | some b => b
  | none => OrderBook.fresh symbol

/-- Persist an `OrderBook` row (`order_book.save()`): replace the row with
the same symbol, or append it if new. -/
def saveBook (books : List OrderBook) (b : OrderBook) : List OrderBook :=
  if books.any (fun x => x.symbol == b.symbol) then
    books.map (fun x => if x.symbol == b.symbol then b else x)
  else
    books ++ [b]

/-- Persist an `Order` row (`order.save()`): replace the row with the same
id, or append it if new. -/
def saveOrder (orders : List Order) (o : Order) : List Order :=
  if orders.any (fun x => x.id == o.id) then
    orders.map (fun x => if x.id == o.id then o else x)
  else
    orders ++ [o]

/-- The field updates of `MatchingEngine._update_order_book` on one book
row: set `last_price` to the trade price, add the amount to `volume_24h`,
and then, mirroring the source's
`if order_book.high_24h is None or price > order_book.high_24h` (and the
analogous `low_24h` test), widen `high_24h` / `low_24h` (initializing them
when `None`). The `getD price` default is never consulted: `||`
short-circuits exactly like Python's `or` when the field is `None`. -/
def updateBookRow (b : OrderBook) (price amount : ℚ) : OrderBook :=
  let b1 := { b with last_price := some price,
                     volume_24h := b.volume_24h + amount }
  let b2 :=
    if b1.high_24h.isNone || decide (price > b1.high_24h.getD price) then
      { b1 with high_24h := some price }
    else b1
  if b2.low_24h.isNone || decide (price < b2.low_24h.getD price) then
    { b2 with low_24h := some price }
  else b2

/-- `MatchingEngine._update_order_book(symbol, price, amount)`: fetch (or
create) the symbol's book row, apply the trade update, and save it. -/
def update_order_book (books : List OrderBook) (symbol : String)
    (price amount : ℚ) : List OrderBook :=
  saveBook books (updateBookRow (getOrCreateBook books symbol) price amount)

/-- `MatchingEngine._get_matching_orders(order)`: filter `self.active_orders`
for same-symbol, opposite-side, crossing orders whose status is `PENDING`
(the source checks `o.status == OrderStatus.PENDING` only). The filter
preserves the list's (insertion) order; no sorting is applied. -/
def get_matching_orders (active : List Order) (order : Order) : List Order :=
  if order.order_type = OrderType.buy then
    active.filter (fun o => decide (o.symbol = order.symbol ∧
      o.order_type = OrderType.sell ∧ o.price ≤ order.price ∧
      o.status = OrderStatus.pending))
  else
    active.filter (fun o => decide (o.symbol = order.symbol ∧
      o.order_type = OrderType.buy ∧ o.price ≥ order.price ∧
      o.status = OrderStatus.pending))

/-- The `Trade.create(...)` record of `place_order`: buyer/seller and
buy/sell order references chosen by the incoming order's side. -/
def mkTrade (order m : Order) (price amount : ℚ) : Trade :=
  { symbol := order.symbol
    buyerId := if order.order_type = OrderType.buy then order.userId else m.userId
    sellerId := if order.order_type = OrderType.sell then order.userId else m.userId
    price := price
    amount := amount
    buyOrderId := if order.order_type = OrderType.buy then order.id else m.id
    sellOrderId := if order.order_type = OrderType.sell then order.id else m.id }

/-- The status recomputation of `place_order` after a fill:
`FILLED` when `filled_amount == amount`, else `PARTIALLY_FILLED`. -/
def fillStatus (o : Order) : Order :=
  if o.filled_amount = o.amount then { o with status := OrderStatus.filled }
  else { o with status := OrderStatus.partiallyFilled }

/-- Result of the matching loop of `place_order`: trades produced (in
order), the final state of the incoming order object, the final states of
the iterated candidate objects (in order, including any untouched tail
after an early `break`), the final `remaining_amount`, and the persisted
tables. -/
structure LoopResult where
  trades : List Trade
  order : Order
  updated : List Order
  remaining : ℚ
  db_orders : List Order
  db_trades : List Trade
  db_books : List OrderBook
deriving Repr

/-- The `for matching_order in matching_orders` loop of
`MatchingEngine.place_order`, threading the mutable objects explicitly:
break when `remaining_amount <= 0`; otherwise take
`trade_amount = min(remaining, m.amount - m.filled_amount)` at the maker's
price `m.price`, create the trade, bump both `filled_amount`s, recompute
both statuses, save both orders, update the symbol's book row, and
continue with `remaining - trade_amount`. -/
def matchLoop (order : Order) (remaining : ℚ) (cands : List Order)
    (dbo : List Order) (dbt : List Trade) (dbb : List OrderBook) :
    LoopResult :=
  match cands with
  | [] => ⟨[], order, [], remaining, dbo, dbt, dbb⟩
  | m :: rest =>
    if remaining ≤ 0 then ⟨[], order, m :: rest, remaining, dbo, dbt, dbb⟩
    else
      let trade_amount := min remaining (m.amount - m.filled_amount)
      let trade_price := m.price
      let trade := mkTrade order m trade_price trade_amount
      let order1 := fillStatus { order with
        filled_amount := order.filled_amount + trade_amount }
      let m1 := fillStatus { m with
        filled_amount := m.filled_amount + trade_amount }
      let dbo1 := saveOrder (saveOrder dbo order1) m1
      let dbt1 := dbt ++ [trade]
      let dbb1 := update_order_book dbb order.symbol trade_price trade_amount
      let r := matchLoop order1 (remaining - trade_amount) rest dbo1 dbt1 dbb1
      ⟨trade :: r.trades, r.order, m1 :: r.updated, r.remaining,
        r.db_orders, r.db_trades, r.db_books⟩

/-- After the loop, the mutations made to matched candidate objects are
visible through `self.active_orders` (the list holds the same objects, and
ORM equality is by id): each active order is replaced by its updated
version when one exists. -/
def applyUpdates (active updated : List Order) : List Order :=
  active.map (fun o =>
    match updated.find? (fun u => u.id == o.id) with
    | some u => u
    | none => o)

/-- `MatchingEngine.place_order(order)`: compute
`remaining = order.amount - order.filled_amount`, fetch the matching
candidates, run the matching loop, and — when `remaining_amount > 0` after
the loop — append the (possibly partially filled) incoming order object to
`self.active_orders`. Returns the produced trades, the incoming order
object as the caller observes it after the call (Python mutates the
argument in place; the HTTP layer reads `order.filled_amount` and
`order.status` from it afterwards), and the new engine state. The source
performs no input validation: every order, whatever its price, amount or
symbol, goes straight into this flow. -/
def place_order (s : EngineState) (order : Order) :
    List Trade × Order × EngineState :=
  let remaining := order.amount - order.filled_amount
  let cands := get_matching_orders s.active_orders order
  let r := matchLoop order remaining cands s.db_orders s.db_trades s.db_books
  let active := applyUpdates s.active_orders r.updated
  let active := if r.remaining > 0 then active ++ [r.order] else active
  (r.trades, r.order,
    { active_orders := active
      db_orders := r.db_orders
      db_trades := r.db_trades
      db_books := r.db_books })

/-- `list.remove(x)` on `self.active_orders` with ORM equality: drop the
first element with the given id. -/
def removeFirstById : List Order → Nat → List Order
  | [], _ => []
  | a :: rest, i => if a.id = i then rest else a :: removeFirstById rest i

/-- `MatchingEngine.cancel_order(order_id, user_id)`:
`Order.get_or_none(id=order_id, user_id=user_id)` on the orders table;
return `False` when absent or when the status is not `PENDING` /
`PARTIALLY_FILLED`; otherwise set the status to `CANCELLED`, save, remove
the order from `self.active_orders` when present, and return `True`. -/
def cancel_order (s : EngineState) (order_id user_id : Nat) :
    Bool × EngineState :=
  match s.db_orders.find? (fun o =>
      decide (o.id = order_id ∧ o.userId = user_id)) with
  | none => (false, s)
  | some o =>
    if o.status = OrderStatus.pending ∨ o.status = OrderStatus.partiallyFilled
    then
      let o1 := { o with status := OrderStatus.cancelled }
      let dbo := saveOrder s.db_orders o1
      let active :=
        if s.active_orders.any (fun a => a.id == o.id) then
          removeFirstById s.active_orders o.id
        else s.active_orders
      (true, { s with db_orders := dbo, active_orders := active })
    else (false, s)

/-! ### The order-book snapshot (`get_order_book`)

The source sorts the bid/ask levels with
`sorted(buy_orders, key=lambda x: float(x["price"]), reverse=True)` and
`sorted(sell_orders, key=lambda x: float(x["price"]))`: the `Decimal`
price is first rendered with `str` (exact) and then parsed as a Python
`float`, i.e. rounded to the nearest IEEE binary64 value (ties to even).
We model the `float` conversion as `float64OfRat` below, exact on the
normal range; a `DecimalField(max_digits=20, decimal_places=8)` value is
either `0` or has absolute value in `[10⁻⁸, 10¹³)`, far inside that range,
so no subnormal/overflow handling is needed. Python's `sorted` is a stable
sort; a stable sort is extensionally determined by (permutation,
sortedness by key, preservation of the relative order of equal keys), so
we embed it as a stable insertion sort on the same key. -/

/-- `⌊log₂ q⌋` for a positive rational `q ≥ 2⁻⁶⁰` (all nonzero absolute
values of `DecimalField(20, 8)` entries qualify): scale by `2⁶⁰`, floor to
a natural number, and take its binary logarithm. -/
def floorLog2Q (q : ℚ) : ℤ :=
  (Nat.log2 ⌊q * 2 ^ 60⌋₊ : ℤ) - 60

/-- Round a rational to the nearest integer, ties to even. -/
def roundHalfEven (q : ℚ) : ℤ :=
  if q - (⌊q⌋ : ℚ) < 1 / 2 then ⌊q⌋
  else if 1 / 2 < q - (⌊q⌋ : ℚ) then ⌊q⌋ + 1
  else if ⌊q⌋ % 2 = 0 then ⌊q⌋ else ⌊q⌋ + 1

/-- `2 ^ z` as a rational, for an integer exponent. -/
def qpow2 (z : ℤ) : ℚ :=
  if 0 ≤ z then (2 : ℚ) ^ z.toNat else ((2 : ℚ) ^ (-z).toNat)⁻¹

/-- Round a positive rational to the nearest IEEE binary64 value (normal
range): with `e = ⌊log₂ q⌋`, the mantissa is `q` scaled to `[2⁵², 2⁵³)`
and rounded half-to-even. -/
def float64Pos (q : ℚ) : ℚ :=
  (roundHalfEven (q * qpow2 (52 - floorLog2Q q)) : ℚ) /
    qpow2 (52 - floorLog2Q q)

/-- Python `float(str(d))` on a `Decimal` `d`, as a rounding map `ℚ → ℚ`
(the binary64 value it denotes, exactly). -/
def float64OfRat (q : ℚ) : ℚ :=
  if q = 0 then 0
  else if q < 0 then -float64Pos (-q)
  else float64Pos q

/-- Stable insert for an ascending sort by a rational key: the new element
goes before the first existing element whose key is not smaller, so
elements inserted earlier (= later in the original list) stay behind
original-earlier elements with an equal key. -/
def keyInsertAsc (key : α → ℚ) (x : α) : List α → List α
  | [] => [x]
  | y :: ys =>
    if key y < key x then y :: keyInsertAsc key x ys else x :: y :: ys

/-- Stable ascending sort by a rational key (extensionally Python's
`sorted(..., key=...)`). -/
def sortAscByKey (key : α → ℚ) : List α → List α
  | [] => []
  | x :: xs => keyInsertAsc key x (sortAscByKey key xs)

/-- Stable insert for a descending sort by a rational key. -/
def keyInsertDesc (key : α → ℚ) (x : α) : List α → List α
  | [] => [x]
  | y :: ys =>
    if key y > key x then y :: keyInsertDesc key x ys else x :: y :: ys

/-- Stable descending sort by a rational key (extensionally Python's
`sorted(..., key=..., reverse=True)`). -/
def sortDescByKey (key : α → ℚ) : List α → List α
  | [] => []
  | x :: xs => keyInsertDesc key x (sortDescByKey key xs)

/-- One `{"price": ..., "amount": ...}` entry of the snapshot; the source
renders both as exact decimal strings, embedded as their exact values. -/
structure BookLevel where
  price : ℚ
  amount : ℚ
deriving DecidableEq, Repr

/-- The snapshot dict returned by `get_order_book`. -/
structure Snapshot where
  symbol : String
  last_price : Option ℚ
  volume_24h : ℚ
  high_24h : Option ℚ
  low_24h : Option ℚ
  bids : List BookLevel
  asks : List BookLevel
deriving Repr

/-- Python truthiness in `str(x) if x else None`: a stored `0` is rendered
as `None` as well. -/
def truthyOpt : Option ℚ → Option ℚ
  | none => none
  | some p => if p = 0 then none else some p

/-- The `buy_orders` list built inside `get_order_book`: the `PENDING`
buy orders of the symbol from `self.active_orders`, as
(price, remaining-amount) levels, in list (insertion) order. -/
def buy_orders (s : EngineState) (symbol : String) : List BookLevel :=
  (s.active_orders.filter (fun o => decide (o.symbol = symbol ∧
    o.order_type = OrderType.buy ∧
    o.status = OrderStatus.pending))).map
    (fun o => BookLevel.mk o.price (o.amount - o.filled_amount))

/-- The `sell_orders` list built inside `get_order_book`: the `PENDING`
sell orders of the symbol from `self.active_orders`, as
(price, remaining-amount) levels, in list (insertion) order. -/
def sell_orders (s : EngineState) (symbol : String) : List BookLevel :=
  (s.active_orders.filter (fun o => decide (o.symbol = symbol ∧
    o.order_type = OrderType.sell ∧
    o.status = OrderStatus.pending))).map
    (fun o => BookLevel.mk o.price (o.amount - o.filled_amount))

/-- `MatchingEngine.get_order_book(symbol)` on the cache-miss path: read
the symbol's book row, collect the `PENDING` buy/sell orders of the symbol
from `self.active_orders` as (price, remaining-amount) levels, and sort
bids descending / asks ascending by the `float`-converted price. -/
def get_order_book (s : EngineState) (symbol : String) : Snapshot :=
  let b := getOrCreateBook s.db_books symbol
  { symbol := symbol
    last_price := truthyOpt b.last_price
    volume_24h := b.volume_24h
    high_24h := truthyOpt b.high_24h
    low_24h := truthyOpt b.low_24h
    bids := sortDescByKey (fun l => float64OfRat l.price)
      (buy_orders s symbol)
    asks := sortAscByKey (fun l => float64OfRat l.price)
      (sell_orders s symbol) }

/-! ### Persistence failures in the matching loop

`place_order` wraps no part of its loop in a `try`/`except`: a raising
persistence call propagates out of the method (releasing the lock on the
way). We embed the loop a second time with an explicit failure schedule —
`failAt k` means the persistence call of iteration `k` (counted from `0`;
modelled at the `Trade.create` call, the iteration's first `await` on the
store) raises. The error branch carries the state at the raise: everything
committed by earlier iterations stays committed, and the Python trade list
is unreachable by the caller. -/

/-- State observable after an exception escapes the matching loop: the
mutated candidate objects so far and the persisted tables. -/
structure FailState where
  updated : List Order
  db_orders : List Order
  db_trades : List Trade
  db_books : List OrderBook
deriving Repr

/-- The matching loop of `place_order` with a persistence-failure schedule
(`failAt`); identical to `matchLoop` except that iteration `k` raises
before committing anything when `failAt k` holds. -/
def matchLoopF (failAt : Nat → Bool) (k : Nat) (order : Order)
    (remaining : ℚ) (cands : List Order) (dbo : List Order)
    (dbt : List Trade) (dbb : List OrderBook) :
    Except FailState LoopResult :=
  match cands with
  | [] => Except.ok ⟨[], order, [], remaining, dbo, dbt, dbb⟩
  | m :: rest =>
    if remaining ≤ 0 then
      Except.ok ⟨[], order, m :: rest, remaining, dbo, dbt, dbb⟩
    else if failAt k then
      Except.error ⟨m :: rest, dbo, dbt, dbb⟩
    else
      let trade_amount := min remaining (m.amount - m.filled_amount)
      let trade_price := m.price
      let trade := mkTrade order m trade_price trade_amount
      let order1 := fillStatus { order with
        filled_amount := order.filled_amount + trade_amount }
      let m1 := fillStatus { m with
        filled_amount := m.filled_amount + trade_amount }
      let dbo1 := saveOrder (saveOrder dbo order1) m1
      let dbt1 := dbt ++ [trade]
      let dbb1 := update_order_book dbb order.symbol trade_price trade_amount
      match matchLoopF failAt (k + 1) order1 (remaining - trade_amount)
          rest dbo1 dbt1 dbb1 with
      | Except.ok r =>
        Except.ok ⟨trade :: r.trades, r.order, m1 :: r.updated, r.remaining,
          r.db_orders, r.db_trades, r.db_books⟩
      | Except.error e =>
        Except.error ⟨m1 :: e.updated, e.db_orders, e.db_trades, e.db_books⟩

/-- `place_order` with the failure schedule: on a raise, the caller gets
no trade list — only the exception — while the engine is left with the
already-committed tables and the mutated resting objects (the incoming
order is *not* appended to `active_orders`, since the append sits after
the loop). -/
def place_orderF (failAt : Nat → Bool) (s : EngineState) (order : Order) :
    Except EngineState (List Trade × Order × EngineState) :=
  let remaining := order.amount - order.filled_amount
  let cands := get_matching_orders s.active_orders order
  match matchLoopF failAt 0 order remaining cands s.db_orders s.db_trades
      s.db_books with
  | Except.ok r =>
    let active := applyUpdates s.active_orders r.updated
    let active := if r.remaining > 0 then active ++ [r.order] else active
    Except.ok (r.trades, r.order,
      { active_orders := active
        db_orders := r.db_orders
        db_trades := r.db_trades
        db_books := r.db_books })
  | Except.error e =>
    Except.error
      { active_orders := applyUpdates s.active_orders e.updated
        db_orders := e.db_orders
        db_trades := e.db_trades
        db_books := e.db_books }

/-! ## Helper lemmas -/

@[simp] lemma fillStatus_id (o : Order) : (fillStatus o).id = o.id := by
  unfold fillStatus; split_ifs <;> rfl

@[simp] lemma fillStatus_userId (o : Order) :
    (fillStatus o).userId = o.userId := by
  unfold fillStatus; split_ifs <;> rfl

@[simp] lemma fillStatus_symbol (o : Order) :
    (fillStatus o).symbol = o.symbol := by
  unfold fillStatus; split_ifs <;> rfl

@[simp] lemma fillStatus_type (o : Order) :
    (fillStatus o).order_type = o.order_type := by
  unfold fillStatus; split_ifs <;> rfl

@[simp] lemma fillStatus_price (o : Order) :
    (fillStatus o).price = o.price := by
  unfold fillStatus; split_ifs <;> rfl

@[simp] lemma fillStatus_amount (o : Order) :
    (fillStatus o).amount = o.amount := by
  unfold fillStatus; split_ifs <;> rfl

@[simp] lemma fillStatus_filled (o : Order) :
    (fillStatus o).filled_amount = o.filled_amount := by
  unfold fillStatus; split_ifs <;> rfl

@[simp] lemma mkTrade_symbol (o m : Order) (p a : ℚ) :
    (mkTrade o m p a).symbol = o.symbol := rfl

@[simp] lemma mkTrade_price (o m : Order) (p a : ℚ) :
    (mkTrade o m p a).price = p := rfl

@[simp] lemma mkTrade_amount (o m : Order) (p a : ℚ) :
    (mkTrade o m p a).amount = a := rfl

/-- Fill accounting of the matching loop: the final incoming-order object
carries its initial fill plus the sum of the produced trade amounts, and
the final `remaining_amount` is the initial one minus that sum. -/
lemma matchLoop_accounting (cands : List Order) :
    ∀ (order : Order) (rem : ℚ) (dbo : List Order) (dbt : List Trade)
      (dbb : List OrderBook),
      (matchLoop order rem cands dbo dbt dbb).order.filled_amount =
        order.filled_amount +
          (((matchLoop order rem cands dbo dbt dbb).trades.map
            Trade.amount).sum) ∧
      (matchLoop order rem cands dbo dbt dbb).remaining =
        rem - (((matchLoop order rem cands dbo dbt dbb).trades.map
          Trade.amount).sum) := by
  induction cands with
  | nil => intro order rem dbo dbt dbb; simp [matchLoop]
  | cons m rest ih =>
    intro order rem dbo dbt dbb
    rw [matchLoop]
    by_cases hr : rem ≤ 0
    · simp [hr]
    · simp only [hr, if_false, List.map_cons, List.sum_cons, mkTrade_amount]
      constructor
      · rw [(ih _ _ _ _ _).1, fillStatus_filled]
        dsimp only
        ring
      · rw [(ih _ _ _ _ _).2]
        ring

/-- If the loop starts with a nonnegative `remaining_amount`, it ends with
a nonnegative one (each `trade_amount` is at most the current
remaining). -/
lemma matchLoop_remaining_nonneg (cands : List Order) :
    ∀ (order : Order) (rem : ℚ) (dbo : List Order) (dbt : List Trade)
      (dbb : List OrderBook), 0 ≤ rem →
      0 ≤ (matchLoop order rem cands dbo dbt dbb).remaining := by
  induction cands with
  | nil => intro order rem dbo dbt dbb h; simpa [matchLoop] using h
  | cons m rest ih =>
    intro order rem dbo dbt dbb h
    rw [matchLoop]
    by_cases hr : rem ≤ 0
    · simpa [hr] using h
    · simp only [hr, if_false]
      exact ih _ _ _ _ _ (by
        have := min_le_left rem (m.amount - m.filled_amount)
        linarith)

lemma updateBookRow_last (b : OrderBook) (p a : ℚ) :
    (updateBookRow b p a).last_price = some p := by
  obtain ⟨sym, lp, vol, hi, lo⟩ := b
  rcases hi with _ | h <;> rcases lo with _ | l <;>
    simp only [updateBookRow] <;> split_ifs <;> rfl

lemma updateBookRow_vol (b : OrderBook) (p a : ℚ) :
    (updateBookRow b p a).volume_24h = b.volume_24h + a := by
  obtain ⟨sym, lp, vol, hi, lo⟩ := b
  rcases hi with _ | h <;> rcases lo with _ | l <;>
    simp only [updateBookRow] <;> split_ifs <;> rfl

lemma updateBookRow_high (b : OrderBook) (p a : ℚ) :
    (updateBookRow b p a).high_24h = some (max (b.high_24h.getD p) p) := by
  obtain ⟨sym, lp, vol, hi, lo⟩ := b
  rcases hi with _ | h <;> rcases lo with _ | l <;>
    simp only [updateBookRow, Option.getD, Option.isNone] <;>
    split_ifs <;> simp_all [max_def] <;> split_ifs <;> linarith

lemma updateBookRow_low (b : OrderBook) (p a : ℚ) :
    (updateBookRow b p a).low_24h = some (min (b.low_24h.getD p) p) := by
  obtain ⟨sym, lp, vol, hi, lo⟩ := b
  rcases hi with _ | h <;> rcases lo with _ | l <;>
    simp only [updateBookRow, Option.getD, Option.isNone] <;>
    split_ifs <;> simp_all [min_def] <;> split_ifs <;> linarith

lemma place_order_trades (s : EngineState) (o : Order) :
    (place_order s o).1 =
      (matchLoop o (o.amount - o.filled_amount)
        (get_matching_orders s.active_orders o)
        s.db_orders s.db_trades s.db_books).trades := rfl

lemma place_order_final (s : EngineState) (o : Order) :
    (place_order s o).2.1 =
      (matchLoop o (o.amount - o.filled_amount)
        (get_matching_orders s.active_orders o)
        s.db_orders s.db_trades s.db_books).order := rfl

/-- Every trade of the matching loop takes its price and its maker-side
order reference from one of the candidates. -/
lemma matchLoop_trades_maker (cands : List Order) :
    ∀ (order : Order) (rem : ℚ) (dbo : List Order) (dbt : List Trade)
      (dbb : List OrderBook) (t : Trade),
      t ∈ (matchLoop order rem cands dbo dbt dbb).trades →
      ∃ m ∈ cands, t.price = m.price ∧
        ((order.order_type = OrderType.buy ∧ t.buyOrderId = order.id ∧
            t.sellOrderId = m.id ∧ t.buyerId = order.userId ∧
            t.sellerId = m.userId) ∨
         (order.order_type = OrderType.sell ∧ t.sellOrderId = order.id ∧
            t.buyOrderId = m.id ∧ t.sellerId = order.userId ∧
            t.buyerId = m.userId)) := by
  induction cands with
  | nil => intro order rem dbo dbt dbb t ht; simp [matchLoop] at ht
  | cons m rest ih =>
    intro order rem dbo dbt dbb t ht
    rw [matchLoop] at ht
    by_cases hr : rem ≤ 0
    · simp [hr] at ht
    · simp only [hr, if_false, List.mem_cons] at ht
      rcases ht with ht | ht
      · refine ⟨m, List.mem_cons_self m rest, ?_⟩
        subst ht
        cases ho : order.order_type <;>
          simp [mkTrade, ho]
      · obtain ⟨m', hm', hp', hside'⟩ := ih _ _ _ _ _ t ht
        refine ⟨m', List.mem_cons_of_mem m hm', hp', ?_⟩
        simpa using hside'

/-- The trades of the matching loop reference the makers in exactly the
order in which the candidates appear in the candidate list: the maker-side
order ids of the trades are the ids of an initial segment of the
candidates. (`ot` names the incoming side so that the statement survives
the loop's rebinding of the incoming order object.) -/
lemma matchLoop_makers_inorder (cands : List Order) :
    ∀ (order : Order) (rem : ℚ) (dbo : List Order) (dbt : List Trade)
      (dbb : List OrderBook) (ot : OrderType),
      order.order_type = ot →
      ∃ k, ((matchLoop order rem cands dbo dbt dbb).trades.map
          (fun t => if ot = OrderType.buy then t.sellOrderId
                    else t.buyOrderId)) =
        ((cands.take k).map Order.id) := by
  induction cands with
  | nil =>
    intro order rem dbo dbt dbb ot hot
    exact ⟨0, by simp [matchLoop]⟩
  | cons m rest ih =>
    intro order rem dbo dbt dbb ot hot
    rw [matchLoop]
    by_cases hr : rem ≤ 0
    · exact ⟨0, by simp [hr]⟩
    · simp only [hr, if_false, List.map_cons]
      obtain ⟨k, hk⟩ := ih
        (fillStatus { order with filled_amount :=
          order.filled_amount + min rem (m.amount - m.filled_amount) })
        (rem - min rem (m.amount - m.filled_amount)) _ _ _ ot
        (by simp [hot])
      refine ⟨k + 1, ?_⟩
      rw [List.take_succ_cons, List.map_cons]
      refine congrArg₂ List.cons ?_ hk
      rcases ot with _ | _ <;>
        simp [mkTrade, hot]

/-- When every candidate has positive remaining amount and the incoming
remaining amount covers the candidates' total remaining, the loop never
breaks early and produces, for every candidate, a trade of exactly that
candidate's remaining amount at that candidate's price, with buyer/seller
user ids assigned by the incoming side. -/
lemma matchLoop_matches_all (cands : List Order) :
    ∀ (order : Order) (rem : ℚ) (dbo : List Order) (dbt : List Trade)
      (dbb : List OrderBook),
      (∀ c ∈ cands, 0 < c.amount - c.filled_amount) →
      ((cands.map (fun c => c.amount - c.filled_amount)).sum ≤ rem) →
      ∀ m ∈ cands, ∃ t ∈ (matchLoop order rem cands dbo dbt dbb).trades,
        t.amount = m.amount - m.filled_amount ∧ t.price = m.price ∧
        t.buyerId = (if order.order_type = OrderType.buy then order.userId
                     else m.userId) ∧
        t.sellerId = (if order.order_type = OrderType.sell then order.userId
                      else m.userId) ∧
        (if order.order_type = OrderType.buy then t.sellOrderId
         else t.buyOrderId) = m.id := by
  induction cands with
  | nil => intro order rem dbo dbt dbb hpos hsum m hm; simp at hm
  | cons c rest ih =>
    intro order rem dbo dbt dbb hpos hsum m hm
    have hrest0 : 0 ≤ (rest.map (fun c => c.amount - c.filled_amount)).sum :=
      List.sum_nonneg (by
        intro x hx
        simp only [List.mem_map] at hx
        obtain ⟨c', hc', rfl⟩ := hx
        exact le_of_lt (hpos c' (List.mem_cons_of_mem c hc')))
    have hcpos : 0 < c.amount - c.filled_amount :=
      hpos c (List.mem_cons_self c rest)
    have hsum' : (c.amount - c.filled_amount) +
        (rest.map (fun c => c.amount - c.filled_amount)).sum ≤ rem := by
      simpa using hsum
    have hcle : c.amount - c.filled_amount ≤ rem := by linarith
    have hr : ¬ rem ≤ 0 := by linarith
    have hta : min rem (c.amount - c.filled_amount) =
        c.amount - c.filled_amount := min_eq_right hcle
    rw [matchLoop]
    simp only [hr, if_false, hta]
    rcases List.mem_cons.mp hm with rfl | hm'
    · refine ⟨mkTrade order m m.price (m.amount - m.filled_amount),
        List.mem_cons_self _ _, rfl, rfl, rfl, rfl, ?_⟩
      cases ho : order.order_type <;> simp [mkTrade, ho]
    · obtain ⟨t, ht, h1, h2, h3, h4, h5⟩ := ih
        (fillStatus { order with filled_amount :=
          order.filled_amount + (c.amount - c.filled_amount) })
        (rem - (c.amount - c.filled_amount)) _ _ _
        (fun c' hc' => hpos c' (List.mem_cons_of_mem c hc'))
        (by linarith) m hm'
      refine ⟨t, List.mem_cons_of_mem _ ht, h1, h2, ?_, ?_, ?_⟩
      · simpa using h3
      · simpa using h4
      · simpa using h5

/-- The matching loop with a failure schedule either runs exactly like the
failure-free loop, or raises, leaving the persisted trades at the original
ones plus an initial segment of the trades the failure-free loop would
have committed by that point. -/
lemma matchLoopF_cases (failAt : Nat → Bool) (cands : List Order) :
    ∀ (k : Nat) (order : Order) (rem : ℚ) (dbo : List Order)
      (dbt : List Trade) (dbb : List OrderBook),
      matchLoopF failAt k order rem cands dbo dbt dbb =
        Except.ok (matchLoop order rem cands dbo dbt dbb) ∨
      ∃ fs j, matchLoopF failAt k order rem cands dbo dbt dbb =
          Except.error fs ∧
        fs.db_trades =
          dbt ++ ((matchLoop order rem cands dbo dbt dbb).trades.take j) := by
  induction cands with
  | nil =>
    intro k order rem dbo dbt dbb
    exact Or.inl rfl
  | cons m rest ih =>
    intro k order rem dbo dbt dbb
    by_cases hr : rem ≤ 0
    · rw [matchLoopF, matchLoop]
      simp only [hr, if_true]
      exact Or.inl trivial
    · by_cases hf : failAt k = true
      · refine Or.inr ⟨⟨m :: rest, dbo, dbt, dbb⟩, 0, ?_, by simp⟩
        rw [matchLoopF]
        simp [hr, hf]
      · rw [matchLoopF, matchLoop]
        simp only [hr, if_false, hf]
        rcases ih (k + 1)
            (fillStatus { order with filled_amount := order.filled_amount + min rem (m.amount - m.filled_amount) })
            (rem - min rem (m.amount - m.filled_amount))
            (saveOrder (saveOrder dbo (fillStatus { order with filled_amount := order.filled_amount + min rem (m.amount - m.filled_amount) })) (fillStatus { m with filled_amount := m.filled_amount + min rem (m.amount - m.filled_amount) }))
            (dbt ++ [mkTrade order m m.price (min rem (m.amount - m.filled_amount))])
            (update_order_book dbb order.symbol m.price (min rem (m.amount - m.filled_amount)))
          with hok | ⟨fs, j, herr, htr⟩
        · rw [hok]
          exact Or.inl rfl
        · rw [herr]
          refine Or.inr ⟨_, j + 1, rfl, ?_⟩
          rw [htr, List.take_succ_cons]
          simp

/-- `applyUpdates` with no updated candidates is the identity. -/
lemma applyUpdates_nil (active : List Order) :
    applyUpdates active [] = active := by
  simp [applyUpdates]

/-- Every element of `saveOrder l o` is either the saved row `o` itself or
an untouched row of `l` with a different id. -/
lemma saveOrder_mem (l : List Order) (o : Order) :
    ∀ x ∈ saveOrder l o, x = o ∨ (x ∈ l ∧ x.id ≠ o.id) := by
  intro x hx
  unfold saveOrder at hx
  split_ifs at hx with hany
  · simp only [List.mem_map] at hx
    obtain ⟨y, hy, hxy⟩ := hx
    by_cases hid : (y.id == o.id) = true
    · rw [if_pos hid] at hxy
      exact Or.inl hxy.symm
    · rw [if_neg hid] at hxy
      subst hxy
      exact Or.inr ⟨hy, by simpa using hid⟩
  · rcases List.mem_append.mp hx with hl | hr
    · refine Or.inr ⟨hl, fun hid => ?_⟩
      have : l.any (fun x => x.id == o.id) = true :=
        List.any_eq_true.mpr ⟨x, hl, by simpa using hid⟩
      exact hany this
    · simp only [List.mem_singleton] at hr
      exact Or.inl hr

/-- After removing the (unique, by `Nodup` of the ids) order with id `i`,
no order with id `i` remains. -/
lemma removeFirstById_id_not_mem (l : List Order) (i : Nat)
    (hnd : (l.map Order.id).Nodup) :
    ∀ x ∈ removeFirstById l i, x.id ≠ i := by
  induction l with
  | nil => intro x hx; simp [removeFirstById] at hx
  | cons a rest ih =>
    intro x hx
    rw [removeFirstById] at hx
    rw [List.map_cons, List.nodup_cons] at hnd
    split_ifs at hx with ha
    · intro hxi
      exact hnd.1 (by
        rw [ha, ← hxi]
        exact List.mem_map_of_mem Order.id hx)
    · rcases List.mem_cons.mp hx with rfl | hx'
      · exact ha
      · exact ih hnd.2 x hx'

lemma get_order_book_asks (s : EngineState) (symbol : String) :
    (get_order_book s symbol).asks =
      sortAscByKey (fun l => float64OfRat l.price) (sell_orders s symbol) :=
  rfl

lemma get_order_book_bids (s : EngineState) (symbol : String) :
    (get_order_book s symbol).bids =
      sortDescByKey (fun l => float64OfRat l.price) (buy_orders s symbol) :=
  rfl

lemma keyInsertAsc_perm {α : Type} (key : α → ℚ) (x : α) (l : List α) :
    (keyInsertAsc key x l).Perm (x :: l) := by
  induction l with
  | nil => simp [keyInsertAsc]
  | cons y ys ih =>
    rw [keyInsertAsc]
    split_ifs with h
    · exact (ih.cons y).trans (List.Perm.swap x y ys)
    · exact List.Perm.refl _

lemma sortAscByKey_perm {α : Type} (key : α → ℚ) (l : List α) :
    (sortAscByKey key l).Perm l := by
  induction l with
  | nil => simp [sortAscByKey]
  | cons x xs ih =>
    rw [sortAscByKey]
    exact (keyInsertAsc_perm key x _).trans (ih.cons x)

lemma keyInsertAsc_sorted {α : Type} (key : α → ℚ) (x : α) :
    ∀ l : List α, l.Pairwise (fun a b => key a ≤ key b) →
    (keyInsertAsc key x l).Pairwise (fun a b => key a ≤ key b) := by
  intro l
  induction l with
  | nil => intro _; simp [keyInsertAsc]
  | cons y ys ih =>
    intro hl
    rw [keyInsertAsc]
    rw [List.pairwise_cons] at hl
    split_ifs with h
    · refine List.pairwise_cons.mpr ⟨?_, ih hl.2⟩
      intro z hz
      rcases List.mem_cons.mp
          ((keyInsertAsc_perm key x ys).mem_iff.mp hz) with rfl | hzy
      · exact le_of_lt h
      · exact hl.1 z hzy
    · refine List.pairwise_cons.mpr ⟨?_, List.pairwise_cons.mpr hl⟩
      intro z hz
      rcases List.mem_cons.mp hz with rfl | hzy
      · exact le_of_not_lt h
      · exact le_trans (le_of_not_lt h) (hl.1 z hzy)

lemma sortAscByKey_sorted {α : Type} (key : α → ℚ) (l : List α) :
    (sortAscByKey key l).Pairwise (fun a b => key a ≤ key b) := by
  induction l with
  | nil => simp [sortAscByKey]
  | cons x xs ih =>
    rw [sortAscByKey]
    exact keyInsertAsc_sorted key x _ ih

lemma keyInsertAsc_stable {α : Type} (key : α → ℚ)
    (R : α → α → Prop) (x : α) :
    ∀ l : List α,
    l.Pairwise (fun a b => key a < key b ∨ (key a = key b ∧ R a b)) →
    (∀ y ∈ l, R x y) →
    (keyInsertAsc key x l).Pairwise
      (fun a b => key a < key b ∨ (key a = key b ∧ R a b)) := by
  intro l
  induction l with
  | nil => intro _ _; simp [keyInsertAsc]
  | cons y ys ih =>
    intro hl hx
    rw [keyInsertAsc]
    rw [List.pairwise_cons] at hl
    split_ifs with h
    · refine List.pairwise_cons.mpr
        ⟨?_, ih hl.2 (fun z hz => hx z (List.mem_cons_of_mem y hz))⟩
      intro z hz
      rcases List.mem_cons.mp
          ((keyInsertAsc_perm key x ys).mem_iff.mp hz) with rfl | hzy
      · exact Or.inl h
      · exact hl.1 z hzy
    · refine List.pairwise_cons.mpr ⟨?_, List.pairwise_cons.mpr hl⟩
      intro z hz
      rcases List.mem_cons.mp hz with rfl | hzy
      · rcases lt_or_eq_of_le (le_of_not_lt h) with hlt | heq
        · exact Or.inl hlt
        · exact Or.inr ⟨heq, hx z (List.mem_cons_self _ _)⟩
      · rcases hl.1 z hzy with hlt | ⟨heq, hR⟩
        · exact Or.inl (lt_of_le_of_lt (le_of_not_lt h) hlt)
        · rcases lt_or_eq_of_le (le_of_not_lt h) with hxy | hxy
          · exact Or.inl (hxy.trans_le heq.le)
          · exact Or.inr ⟨hxy.trans heq,
              hx z (List.mem_cons_of_mem y hzy)⟩

lemma sortAscByKey_stable {α : Type} (key : α → ℚ) (R : α → α → Prop) :
    ∀ l : List α, l.Pairwise R →
    (sortAscByKey key l).Pairwise
      (fun a b => key a < key b ∨ (key a = key b ∧ R a b)) := by
  intro l
  induction l with
  | nil => intro _; simp [sortAscByKey]
  | cons x xs ih =>
    intro hl
    rw [sortAscByKey]
    rw [List.pairwise_cons] at hl
    refine keyInsertAsc_stable key R x _ (ih hl.2) ?_
    intro y hy
    exact hl.1 y ((sortAscByKey_perm key xs).mem_iff.mp hy)

lemma keyInsertDesc_eq {α : Type} (key : α → ℚ) (x : α) (l : List α) :
    keyInsertDesc key x l = keyInsertAsc (fun a => -key a) x l := by
  induction l with
  | nil => rfl
  | cons y ys ih =>
    rw [keyInsertDesc, keyInsertAsc, ih]
    simp only [gt_iff_lt, neg_lt_neg_iff]

lemma sortDescByKey_eq {α : Type} (key : α → ℚ) (l : List α) :
    sortDescByKey key l = sortAscByKey (fun a => -key a) l := by
  induction l with
  | nil => rfl
  | cons x xs ih =>
    rw [sortDescByKey, sortAscByKey, ih, keyInsertDesc_eq]

/-! ## Claims -/

/-- Concrete fixtures used in witnesses and counterexamples. -/
def oSellA : Order :=
  ⟨1, 10, "BTC/USDT", OrderType.sell, 10, 5, 0, OrderStatus.pending, 1⟩

def oSellB : Order :=
  ⟨2, 11, "BTC/USDT", OrderType.sell, 9, 5, 0, OrderStatus.pending, 2⟩

def oBuyC : Order :=
  ⟨3, 12, "BTC/USDT", OrderType.buy, 10, 1, 0, OrderStatus.pending, 3⟩

def sAB : EngineState := ⟨[oSellA, oSellB], [oSellA, oSellB], [], []⟩

def sB : EngineState := ⟨[oSellB], [oSellB], [], []⟩

def oTimeA : Order :=
  ⟨1, 10, "BTC/USDT", OrderType.sell, 100, 2, 0, OrderStatus.pending, 1⟩

def oTimeB : Order :=
  ⟨2, 11, "BTC/USDT", OrderType.sell, 100, 3, 0, OrderStatus.pending, 2⟩

def oTimeC : Order :=
  ⟨3, 12, "BTC/USDT", OrderType.buy, 100, 4, 0, OrderStatus.pending, 3⟩

def sTime : EngineState := ⟨[oTimeA, oTimeB], [oTimeA, oTimeB], [], []⟩

def oBad : Order :=
  ⟨7, 13, "BTC/USDT", OrderType.buy, 0, 5, 0, OrderStatus.pending, 7⟩

def oSelfSell : Order :=
  ⟨1, 10, "BTC/USDT", OrderType.sell, 10, 1, 0, OrderStatus.pending, 1⟩

def oSelfBuy : Order :=
  ⟨2, 10, "BTC/USDT", OrderType.buy, 10, 1, 0, OrderStatus.pending, 2⟩

def sSelf : EngineState := ⟨[oSelfSell], [oSelfSell], [], []⟩

def oTimeD : Order :=
  ⟨4, 13, "BTC/USDT", OrderType.buy, 100, 1, 0, OrderStatus.pending, 4⟩

def sEmpty : EngineState := ⟨[], [], [], []⟩

/-- C1 (amended): `place_order` consumes the candidates of
`_get_matching_orders` in the order in which they rest in
`self.active_orders` (insertion order — the arrival order of the orders —
with no sorting by price): the maker ids of the produced trades are an
initial segment of the candidate list's ids. Since insertion order follows
creation order, two resting sells at the same price with different
creation times are still consumed earliest-first by a partially filling
incoming buy: in the concrete same-price scenario (sell id 1: price 100
amount 2, created t=1; sell id 2: price 100 amount 3, created t=2;
incoming buy: price 100 amount 4) the trades are (amount 2, maker 1) then
(amount 2, maker 2) and the buy ends `filled`. -/
theorem claim_C1_insertion_order_matching (s : EngineState)
    (order : Order) :
    (∃ k, ((place_order s order).1.map
        (fun t => if order.order_type = OrderType.buy then t.sellOrderId
                  else t.buyOrderId)) =
      (((get_matching_orders s.active_orders order).take k).map
        Order.id)) ∧
    ((place_order sTime oTimeC).1.map
      (fun t => (t.amount, t.sellOrderId))) = [(2, 1), (2, 2)] ∧
    (place_order sTime oTimeC).2.1.status = OrderStatus.filled := by
  refine ⟨?_, ?_, ?_⟩
  · rw [place_order_trades]
    exact matchLoop_makers_inorder _ order _ _ _ _ order.order_type rfl
  · norm_num [place_order, sTime, oTimeA, oTimeB, oTimeC,
      get_matching_orders, matchLoop, mkTrade, fillStatus, List.filter]
    decide
  · norm_num [place_order, sTime, oTimeA, oTimeB, oTimeC,
      get_matching_orders, matchLoop, mkTrade, fillStatus, List.filter]

/-- C1, refuted as stated: with resting sells id 1 at price 10 (earlier)
and id 2 at price 9 (later), an incoming buy at limit 10 for amount 1 is
matched against the *worse-priced* sell id 1 at price 10 — even though the
better-priced sell id 2 at 9 is in the candidate set — because the source
never sorts candidates by price. -/
theorem claim_C1_price_priority_counterexample :
    oSellB ∈ get_matching_orders sAB.active_orders oBuyC ∧
    oSellB.price < oSellA.price ∧
    ((place_order sAB oBuyC).1.map (fun t => (t.price, t.sellOrderId))) =
      [(10, 1)] := by
  refine ⟨?_, ?_, ?_⟩
  · norm_num [get_matching_orders, sAB, oSellA, oSellB, oBuyC, List.filter]
  · norm_num [oSellA, oSellB]
  · norm_num [place_order, sAB, oSellA, oSellB, oBuyC,
      get_matching_orders, matchLoop, mkTrade, fillStatus, List.filter]
    decide

/-- C5 (amended): `place_order` performs no input validation at all — an
order with non-positive price or amount (or an unknown symbol) takes the
normal matching path, and whenever its remaining amount is positive and
nothing crosses it, the order is appended to the resting set while the
persisted tables stay unchanged; nothing is rejected. -/
theorem claim_C5_no_input_validation (s : EngineState) (order : Order)
    (hc : get_matching_orders s.active_orders order = [])
    (hr : 0 < order.amount - order.filled_amount) :
    (place_order s order).1 = [] ∧
    (place_order s order).2.2.active_orders =
      s.active_orders ++ [order] ∧
    (place_order s order).2.2.db_orders = s.db_orders ∧
    (place_order s order).2.2.db_trades = s.db_trades ∧
    (place_order s order).2.2.db_books = s.db_books := by
  simp only [place_order, hc, matchLoop]
  simp [applyUpdates_nil, hr]

/-- C5 (amended), instantiated: a buy with price 0 (invalid per the spec)
and amount 5 on an empty book is appended to the resting set. -/
theorem claim_C5_no_input_validation_witness :
    (place_order sEmpty oBad).1 = [] ∧
    (place_order sEmpty oBad).2.2.active_orders =
      sEmpty.active_orders ++ [oBad] ∧
    (place_order sEmpty oBad).2.2.db_orders = sEmpty.db_orders ∧
    (place_order sEmpty oBad).2.2.db_trades = sEmpty.db_trades ∧
    (place_order sEmpty oBad).2.2.db_books = sEmpty.db_books :=
  claim_C5_no_input_validation sEmpty oBad
    (by norm_num [get_matching_orders, sEmpty, oBad])
    (by norm_num [oBad])

/-- C5, refuted as stated: an order with non-positive price (price 0) is
not rejected — `place_order` runs, creates no trade, and *mutates state*
by adding the invalid order to the resting set. -/
theorem claim_C5_counterexample :
    oBad.price ≤ 0 ∧ 0 < oBad.amount ∧
    (place_order sEmpty oBad).2.2.active_orders = [oBad] := by
  refine ⟨by norm_num [oBad], by norm_num [oBad], ?_⟩
  norm_num [place_order, sEmpty, oBad, get_matching_orders, matchLoop,
    applyUpdates, List.filter]

/-- C3: for a valid order (`filled_amount = 0`, `amount > 0`), after
`place_order` returns, the sum of the returned trades' amounts is at most
`order.amount`, and the order's `filled_amount` (as the caller observes it
on the mutated order object) equals that sum. -/
theorem claim_C3_fill_conservation (s : EngineState) (order : Order)
    (hf : order.filled_amount = 0) (ha : 0 < order.amount) :
    ((place_order s order).1.map Trade.amount).sum ≤ order.amount ∧
    (place_order s order).2.1.filled_amount =
      ((place_order s order).1.map Trade.amount).sum := by
  have hacc := matchLoop_accounting
    (get_matching_orders s.active_orders order) order
    (order.amount - order.filled_amount)
    s.db_orders s.db_trades s.db_books
  have hrem : (0 : ℚ) ≤ order.amount - order.filled_amount := by
    rw [hf]; linarith
  have hnn := matchLoop_remaining_nonneg
    (get_matching_orders s.active_orders order) order
    (order.amount - order.filled_amount)
    s.db_orders s.db_trades s.db_books hrem
  rw [place_order_trades, place_order_final]
  constructor
  · rw [hacc.2] at hnn
    linarith [hf]
  · rw [hacc.1, hf]
    ring

/-- C3, instantiated: incoming buy (price 10, amount 1, unfilled) against
a resting sell at 9: the trade amounts sum to at most 1 and the buy's
final fill equals that sum. -/
theorem claim_C3_fill_conservation_witness :
    ((place_order sB oBuyC).1.map Trade.amount).sum ≤ oBuyC.amount ∧
    (place_order sB oBuyC).2.1.filled_amount =
      ((place_order sB oBuyC).1.map Trade.amount).sum :=
  claim_C3_fill_conservation sB oBuyC rfl (by norm_num [oBuyC])

/-- C4: every trade created by `place_order` has execution price equal to
the price of the resting (maker) candidate it was matched against — in
particular, when the maker's price differs from the incoming (taker)
order's limit price, the trade does not execute at the taker's price —
and its maker-side order reference is that candidate's id. -/
theorem claim_C4_maker_price (s : EngineState) (order : Order) (t : Trade)
    (ht : t ∈ (place_order s order).1) :
    ∃ m ∈ get_matching_orders s.active_orders order,
      t.price = m.price ∧
      (m.price ≠ order.price → t.price ≠ order.price) ∧
      ((order.order_type = OrderType.buy ∧ t.buyOrderId = order.id ∧
          t.sellOrderId = m.id) ∨
       (order.order_type = OrderType.sell ∧ t.sellOrderId = order.id ∧
          t.buyOrderId = m.id)) := by
  rw [place_order_trades] at ht
  obtain ⟨m, hm, hp, hside⟩ := matchLoop_trades_maker _ _ _ _ _ _ t ht
  refine ⟨m, hm, hp, fun hne => by rw [hp]; exact hne, ?_⟩
  rcases hside with ⟨h1, h2, h3, _⟩ | ⟨h1, h2, h3, _⟩
  · exact Or.inl ⟨h1, h2, h3⟩
  · exact Or.inr ⟨h1, h2, h3⟩

/-- C4, instantiated: an incoming buy at limit 10 matched against a
resting sell at 9 trades at the maker's price 9, not at the taker's
better limit price 10. -/
theorem claim_C4_maker_price_witness :
    ∃ m ∈ get_matching_orders sB.active_orders oBuyC,
      (Trade.mk "BTC/USDT" 12 11 9 1 3 2).price = m.price ∧
      (m.price ≠ oBuyC.price →
        (Trade.mk "BTC/USDT" 12 11 9 1 3 2).price ≠ oBuyC.price) ∧
      ((oBuyC.order_type = OrderType.buy ∧
          (Trade.mk "BTC/USDT" 12 11 9 1 3 2).buyOrderId = oBuyC.id ∧
          (Trade.mk "BTC/USDT" 12 11 9 1 3 2).sellOrderId = m.id) ∨
       (oBuyC.order_type = OrderType.sell ∧
          (Trade.mk "BTC/USDT" 12 11 9 1 3 2).sellOrderId = oBuyC.id ∧
          (Trade.mk "BTC/USDT" 12 11 9 1 3 2).buyOrderId = m.id)) :=
  claim_C4_maker_price sB oBuyC (Trade.mk "BTC/USDT" 12 11 9 1 3 2)
    (by norm_num [place_order, sB, oBuyC, oSellB, get_matching_orders,
      matchLoop, mkTrade, fillStatus, List.filter]; decide)

/-- C2, code bug exhibited: after the end-to-end scenario (sell id 1:
100×2, sell id 2: 100×3, incoming buy id 3: 100×4) the resting list holds
sell id 1 (`filled`) and sell id 2 with status `partially_filled` and
`filled_amount = 2` — one unit still available at price 100 — yet a
subsequent crossing buy
(id 4, price 100, amount 1) gets an *empty* candidate set and no trade:
`_get_matching_orders` filters for `status == PENDING` only, so a
partially filled resting order can never be matched again, although the
engine itself put it (back) into `active_orders` as live and
`cancel_order` treats `PARTIALLY_FILLED` as live. -/
theorem claim_C2_partially_filled_never_candidate :
    ((place_order sTime oTimeC).2.2.active_orders.map
      (fun o => (o.id, o.status, o.filled_amount))) =
      [(1, OrderStatus.filled, 2), (2, OrderStatus.partiallyFilled, 2)] ∧
    get_matching_orders (place_order sTime oTimeC).2.2.active_orders
      oTimeD = [] ∧
    (place_order (place_order sTime oTimeC).2.2 oTimeD).1 = [] := by
  refine ⟨?_, ?_, ?_⟩ <;>
    norm_num [place_order, sTime, oTimeA, oTimeB, oTimeC, oTimeD,
      get_matching_orders, matchLoop, mkTrade, fillStatus, applyUpdates,
      saveOrder, saveBook, getOrCreateBook, update_order_book,
      updateBookRow, List.filter, List.find?] <;> decide

/-- `2³³ + 2·10⁻⁸`: an 18-significant-digit value of
`DecimalField(20, 8)`. -/
def pFltHi : ℚ := 8589934592 + 2 / 100000000

/-- `2³³ + 10⁻⁸`: a distinct decimal that rounds to the same binary64
value as `pFltHi` (the double spacing at `2³³` is `2⁻¹⁹ ≈ 1.9·10⁻⁶`). -/
def pFltLo : ℚ := 8589934592 + 1 / 100000000

def oFltA : Order :=
  ⟨1, 10, "BTC/USDT", OrderType.sell, pFltHi, 1, 0, OrderStatus.pending, 1⟩

def oFltB : Order :=
  ⟨2, 11, "BTC/USDT", OrderType.sell, pFltLo, 1, 0, OrderStatus.pending, 2⟩

def sFlt : EngineState := ⟨[oFltA, oFltB], [oFltA, oFltB], [], []⟩

lemma float64_pFltHi : float64OfRat pFltHi = 8589934592 := by
  unfold pFltHi
  have hfloor : ⌊((8589934592 : ℚ) + 2 / 100000000) * 2 ^ 60⌋₊ =
      9903520314283042222251423884 := by
    rw [Nat.floor_eq_iff (by positivity)]
    norm_num
  have hlog : Nat.log2 9903520314283042222251423884 = 93 := by
    rw [Nat.log2_eq_log_two]
    exact Nat.log_eq_of_pow_le_of_lt_pow (by norm_num) (by norm_num)
  have he : floorLog2Q ((8589934592 : ℚ) + 2 / 100000000) = 33 := by
    rw [floorLog2Q, hfloor, hlog]
    norm_num
  rw [float64OfRat, if_neg (by norm_num), if_neg (by norm_num),
    float64Pos, he]
  have hq : qpow2 (52 - 33) = 524288 := by
    rw [qpow2, if_pos (by norm_num), show Int.toNat (52 - 33) = 19 from rfl]
    norm_num
  rw [hq]
  have hround : roundHalfEven (((8589934592 : ℚ) + 2 / 100000000) *
      524288) = 4503599627370496 := by
    rw [roundHalfEven]
    norm_num
  rw [hround]
  norm_num

lemma float64_pFltLo : float64OfRat pFltLo = 8589934592 := by
  unfold pFltLo
  have hfloor : ⌊((8589934592 : ℚ) + 1 / 100000000) * 2 ^ 60⌋₊ =
      9903520314283042210722208838 := by
    rw [Nat.floor_eq_iff (by positivity)]
    norm_num
  have hlog : Nat.log2 9903520314283042210722208838 = 93 := by
    rw [Nat.log2_eq_log_two]
    exact Nat.log_eq_of_pow_le_of_lt_pow (by norm_num) (by norm_num)
  have he : floorLog2Q ((8589934592 : ℚ) + 1 / 100000000) = 33 := by
    rw [floorLog2Q, hfloor, hlog]
    norm_num
  rw [float64OfRat, if_neg (by norm_num), if_neg (by norm_num),
    float64Pos, he]
  have hq : qpow2 (52 - 33) = 524288 := by
    rw [qpow2, if_pos (by norm_num), show Int.toNat (52 - 33) = 19 from rfl]
    norm_num
  rw [hq]
  have hround : roundHalfEven (((8589934592 : ℚ) + 1 / 100000000) *
      524288) = 4503599627370496 := by
    rw [roundHalfEven]
    norm_num
  rw [hround]
  norm_num

/-- C9 (amended): the snapshot of `get_order_book` lists the pending
levels of the symbol with bids sorted descending and asks ascending **by
the IEEE binary64 (`float`) approximation of the price** — the source's
sort key is `float(x["price"])`, not the exact decimal — and, the sort
being stable over a list in insertion (= creation) order, entries whose
float keys are equal keep their relative input order (so equal *exact*
prices are tie-broken by earlier creation time, but so are distinct
decimal prices that collide as doubles). The stability conjuncts
universally quantify the input precedence relation `R`; instantiating `R`
with "comes from an earlier-created order" is the tie-break statement. -/
theorem claim_C9_float_sorted_snapshot (s : EngineState)
    (symbol : String) :
    ((get_order_book s symbol).asks.Perm (sell_orders s symbol)) ∧
    (get_order_book s symbol).asks.Pairwise
      (fun a b => float64OfRat a.price ≤ float64OfRat b.price) ∧
    ((get_order_book s symbol).bids.Perm (buy_orders s symbol)) ∧
    (get_order_book s symbol).bids.Pairwise
      (fun a b => float64OfRat b.price ≤ float64OfRat a.price) ∧
    (∀ R : BookLevel → BookLevel → Prop,
      (sell_orders s symbol).Pairwise R →
      (get_order_book s symbol).asks.Pairwise (fun a b =>
        float64OfRat a.price < float64OfRat b.price ∨
        (float64OfRat a.price = float64OfRat b.price ∧ R a b))) ∧
    (∀ R : BookLevel → BookLevel → Prop,
      (buy_orders s symbol).Pairwise R →
      (get_order_book s symbol).bids.Pairwise (fun a b =>
        float64OfRat b.price < float64OfRat a.price ∨
        (float64OfRat a.price = float64OfRat b.price ∧ R a b))) := by
  rw [get_order_book_asks, get_order_book_bids, sortDescByKey_eq]
  refine ⟨sortAscByKey_perm _ _, sortAscByKey_sorted _ _,
    sortAscByKey_perm _ _, ?_, ?_, ?_⟩
  · exact (sortAscByKey_sorted
      (fun l : BookLevel => -float64OfRat l.price) _).imp
      (fun h => by simpa using h)
  · intro R hR
    exact sortAscByKey_stable _ R _ hR
  · intro R hR
    refine (sortAscByKey_stable
      (fun l : BookLevel => -float64OfRat l.price) R _ hR).imp ?_
    intro a b h
    rcases h with h | ⟨h1, h2⟩
    · exact Or.inl (by simpa using h)
    · exact Or.inr ⟨neg_inj.mp h1, h2⟩

/-- C9, refuted as stated: the sort key is `float(price)`, not the exact
decimal. The resting sells at `2³³ + 2·10⁻⁸` (created first) and
`2³³ + 10⁻⁸` (created second) have different decimal prices but the same
binary64 value, so the snapshot orders them as if equal — keeping
insertion order — and the asks come out as
`[2³³ + 2·10⁻⁸, 2³³ + 10⁻⁸]`, which is *not* ascending in the exact
prices. -/
theorem claim_C9_float_collision_counterexample :
    pFltLo < pFltHi ∧
    float64OfRat pFltHi = float64OfRat pFltLo ∧
    ((get_order_book sFlt "BTC/USDT").asks.map BookLevel.price) =
      [pFltHi, pFltLo] := by
  refine ⟨by norm_num [pFltHi, pFltLo], ?_, ?_⟩
  · rw [float64_pFltHi, float64_pFltLo]
  · rw [get_order_book_asks]
    have hsell : sell_orders sFlt "BTC/USDT" =
        [BookLevel.mk pFltHi 1, BookLevel.mk pFltLo 1] := by
      norm_num [sell_orders, sFlt, oFltA, oFltB, List.filter]
    rw [hsell, sortAscByKey, sortAscByKey, sortAscByKey, keyInsertAsc,
      keyInsertAsc]
    rw [if_neg (by
      simp only []
      rw [float64_pFltHi, float64_pFltLo]
      exact lt_irrefl _)]
    rfl

/-- C9 (amended), instantiated at a concrete book (resting sells at 10
and 9): the asks are pairwise ordered by the float64 key, and with the
trivial precedence relation the stability conjunct holds. -/
theorem claim_C9_float_sorted_snapshot_witness :
    (get_order_book sAB "BTC/USDT").asks.Pairwise
      (fun a b => float64OfRat a.price ≤ float64OfRat b.price) ∧
    (get_order_book sAB "BTC/USDT").asks.Pairwise (fun a b =>
      float64OfRat a.price < float64OfRat b.price ∨
      (float64OfRat a.price = float64OfRat b.price ∧ True)) := by
  have h := claim_C9_float_sorted_snapshot sAB "BTC/USDT"
  refine ⟨h.2.1, h.2.2.2.2.1 (fun _ _ => True) ?_⟩
  have hsell : sell_orders sAB "BTC/USDT" =
      [BookLevel.mk 10 5, BookLevel.mk 9 5] := by
    norm_num [sell_orders, sAB, oSellA, oSellB, List.filter]
  rw [hsell]
  exact List.pairwise_cons.mpr ⟨fun _ _ => trivial,
    List.pairwise_cons.mpr ⟨fun _ _ => trivial, List.Pairwise.nil⟩⟩

/-- C10: `place_order` performs no self-trade prevention: when a crossing
resting candidate is owned by the same user as the incoming order (and the
incoming remaining amount suffices to reach every candidate), the engine
matches them anyway and creates a trade whose buyer user id equals its
seller user id. -/
theorem claim_C10_no_self_trade_prevention (s : EngineState)
    (order m : Order)
    (hm : m ∈ get_matching_orders s.active_orders order)
    (hpos : ∀ c ∈ get_matching_orders s.active_orders order,
      0 < c.amount - c.filled_amount)
    (hcap : ((get_matching_orders s.active_orders order).map
        (fun c => c.amount - c.filled_amount)).sum ≤
      order.amount - order.filled_amount)
    (huser : m.userId = order.userId) :
    ∃ t ∈ (place_order s order).1,
      t.buyerId = t.sellerId ∧ t.buyerId = order.userId ∧
      (if order.order_type = OrderType.buy then t.sellOrderId
       else t.buyOrderId) = m.id := by
  rw [place_order_trades]
  obtain ⟨t, ht, _, _, hb, hs, hid⟩ := matchLoop_matches_all _ order _ _ _ _
    hpos hcap m hm
  rw [huser, ite_self] at hb hs
  exact ⟨t, ht, hb.trans hs.symm, hb, hid⟩

/-- C10, instantiated: user 10's incoming buy (price 10, amount 1) matches
user 10's own resting sell (id 1, price 10, amount 1) and produces a
self-trade. -/
theorem claim_C10_no_self_trade_prevention_witness :
    ∃ t ∈ (place_order sSelf oSelfBuy).1,
      t.buyerId = t.sellerId ∧ t.buyerId = oSelfBuy.userId ∧
      (if oSelfBuy.order_type = OrderType.buy then t.sellOrderId
       else t.buyOrderId) = oSelfSell.id :=
  claim_C10_no_self_trade_prevention sSelf oSelfBuy oSelfSell
    (by norm_num [get_matching_orders, sSelf, oSelfSell, oSelfBuy,
      List.filter])
    (by
      intro c hc
      norm_num [get_matching_orders, sSelf, oSelfSell, oSelfBuy,
        List.filter] at hc
      rw [hc]
      norm_num [oSelfSell])
    (by norm_num [get_matching_orders, sSelf, oSelfSell, oSelfBuy,
      List.filter])
    rfl

/-- C7: `cancel_order` returns `false` and changes no state when no order
matches the id *and* the requesting user (covering both "does not exist"
and "not the owner"), or when the matched order is already terminal
(`filled` or `cancelled`); otherwise it returns `true`, marks every stored
row with that id `cancelled`, and leaves no order with that id in the
resting set (the resting ids are assumed duplicate-free, as produced by
the engine). -/
theorem claim_C7_cancel_semantics (s : EngineState) (oid uid : Nat)
    (hnd : (s.active_orders.map Order.id).Nodup) :
    (s.db_orders.find? (fun o => decide (o.id = oid ∧ o.userId = uid)) =
        none → cancel_order s oid uid = (false, s)) ∧
    (∀ o, s.db_orders.find?
        (fun o => decide (o.id = oid ∧ o.userId = uid)) = some o →
      o.status = OrderStatus.filled ∨ o.status = OrderStatus.cancelled →
      cancel_order s oid uid = (false, s)) ∧
    (∀ o, s.db_orders.find?
        (fun o => decide (o.id = oid ∧ o.userId = uid)) = some o →
      o.status = OrderStatus.pending ∨
        o.status = OrderStatus.partiallyFilled →
      (cancel_order s oid uid).1 = true ∧
      (∀ x ∈ (cancel_order s oid uid).2.db_orders, x.id = oid →
        x.status = OrderStatus.cancelled) ∧
      (∀ x ∈ (cancel_order s oid uid).2.active_orders, x.id ≠ oid)) := by
  refine ⟨?_, ?_, ?_⟩
  · intro hnone
    unfold cancel_order
    rw [hnone]
  · intro o hsome hterm
    unfold cancel_order
    rw [hsome]
    have : ¬ (o.status = OrderStatus.pending ∨
        o.status = OrderStatus.partiallyFilled) := by
      rcases hterm with h | h <;> rw [h] <;> decide
    simp only [this, if_false]
  · intro o hsome hlive
    have hid : o.id = oid := by
      have hpt := List.find?_some hsome
      simp only [decide_eq_true_eq] at hpt
      exact hpt.1
    unfold cancel_order
    rw [hsome]
    simp only [hlive, if_true]
    refine ⟨by trivial, ?_, ?_⟩
    · intro x hx hxid
      rcases saveOrder_mem _ _ x hx with rfl | ⟨_, hne⟩
      · rfl
      · exact absurd (by rw [hxid, hid]) hne
    · intro x hx
      split_ifs at hx with hany
      · rw [hid] at hx
        exact removeFirstById_id_not_mem _ _ hnd x hx
      · intro hxi
        refine hany (List.any_eq_true.mpr ⟨x, hx, ?_⟩)
        simp [hxi, hid]

/-- C7, instantiated: cancelling resting pending order id 1 as its owner
user 10 succeeds and leaves no order with id 1 in the resting set, while
cancelling with the wrong user (99) fails and leaves the state
untouched. -/
theorem claim_C7_cancel_semantics_witness :
    (cancel_order sAB 1 10).1 = true ∧
    (∀ x ∈ (cancel_order sAB 1 10).2.active_orders, x.id ≠ 1) ∧
    cancel_order sAB 1 99 = (false, sAB) := by
  have h1 := (claim_C7_cancel_semantics sAB 1 10
    (by norm_num [sAB, oSellA, oSellB])).2.2 oSellA
    (by norm_num [sAB, oSellA, oSellB, List.find?])
    (Or.inl rfl)
  have h2 := (claim_C7_cancel_semantics sAB 1 99
    (by norm_num [sAB, oSellA, oSellB])).1
    (by norm_num [sAB, oSellA, oSellB, List.find?])
  exact ⟨h1.1, h1.2.2, h2⟩

/-- C6 (amended): `place_order` wraps no part of its matching loop in a
`try`/`except`, so a persistence failure during the loop aborts the
remaining iterations and *propagates as an exception*: the call either
behaves exactly like the failure-free run, or raises with the store
holding the previously persisted trades plus an initial segment of the
trades the failure-free run would have committed — already-committed
trades are preserved, but the caller receives no partial-success trade
list. -/
theorem claim_C6_persistence_failure_propagates (failAt : Nat → Bool)
    (s : EngineState) (order : Order) :
    place_orderF failAt s order = Except.ok (place_order s order) ∨
    ∃ e j, place_orderF failAt s order = Except.error e ∧
      e.db_trades = s.db_trades ++ ((place_order s order).1.take j) := by
  unfold place_orderF
  dsimp only
  rcases matchLoopF_cases failAt (get_matching_orders s.active_orders order)
      0 order (order.amount - order.filled_amount) s.db_orders s.db_trades
      s.db_books with hok | ⟨fs, j, herr, htr⟩
  · rw [hok]
    exact Or.inl rfl
  · rw [herr]
    refine Or.inr ⟨_, j, rfl, ?_⟩
    rw [place_order_trades]
    exact htr

/-- C6, refuted as stated: in the end-to-end scenario (two crossing
resting sells, incoming buy needing both), a persistence failure at the
second loop iteration leaves the store with exactly the one committed
trade and the partially updated orders — but the call evaluates to an
exception, *not* to a partial-success result listing that completed trade
(the failure-free run would have returned 2 trades). -/
theorem claim_C6_counterexample :
    place_orderF (fun k => k == 1) sTime oTimeC = Except.error
      ⟨[⟨1, 10, "BTC/USDT", OrderType.sell, 100, 2, 2,
          OrderStatus.filled, 1⟩,
        ⟨2, 11, "BTC/USDT", OrderType.sell, 100, 3, 0,
          OrderStatus.pending, 2⟩],
       [⟨1, 10, "BTC/USDT", OrderType.sell, 100, 2, 2,
          OrderStatus.filled, 1⟩,
        ⟨2, 11, "BTC/USDT", OrderType.sell, 100, 3, 0,
          OrderStatus.pending, 2⟩,
        ⟨3, 12, "BTC/USDT", OrderType.buy, 100, 4, 2,
          OrderStatus.partiallyFilled, 3⟩],
       [⟨"BTC/USDT", 12, 10, 100, 2, 3, 1⟩],
       [⟨"BTC/USDT", some 100, 2, some 100, some 100⟩]⟩ ∧
    (place_order sTime oTimeC).1.length = 2 := by
  constructor
  · norm_num [place_orderF, sTime, oTimeA, oTimeB, oTimeC,
      get_matching_orders, matchLoopF, mkTrade, fillStatus, applyUpdates,
      saveOrder, saveBook, getOrCreateBook, OrderBook.fresh,
      update_order_book, updateBookRow, List.filter, List.find?,
      Option.getD, Option.isNone]
    simp only [show ((1 : Nat) == (2 : Nat)) = false from rfl]
    exact ⟨trivial, by decide⟩
  · norm_num [place_order, sTime, oTimeA, oTimeB, oTimeC,
      get_matching_orders, matchLoop, mkTrade, fillStatus, List.filter]

/-- C8: `_update_order_book` applied to a book row sets `last_price` to
the trade price, adds the amount to `volume_24h`, widens `high_24h` /
`low_24h` to the max/min of their current value and the trade price
(initializing them on the first trade); consequently
`high_24h ≥ last_price ≥ low_24h` holds after the update whenever all
three are set, `high_24h` never decreases, and `low_24h` never
increases. -/
theorem claim_C8_order_book_update (b : OrderBook) (price amount : ℚ) :
    (updateBookRow b price amount).last_price = some price ∧
    (updateBookRow b price amount).volume_24h = b.volume_24h + amount ∧
    (updateBookRow b price amount).high_24h =
      some (max (b.high_24h.getD price) price) ∧
    (updateBookRow b price amount).low_24h =
      some (min (b.low_24h.getD price) price) ∧
    (∀ h l, (updateBookRow b price amount).high_24h = some h →
      (updateBookRow b price amount).low_24h = some l →
      l ≤ price ∧ price ≤ h) ∧
    (∀ h h', b.high_24h = some h →
      (updateBookRow b price amount).high_24h = some h' → h ≤ h') ∧
    (∀ l l', b.low_24h = some l →
      (updateBookRow b price amount).low_24h = some l' → l' ≤ l) := by
  refine ⟨updateBookRow_last b price amount, updateBookRow_vol b price amount,
    updateBookRow_high b price amount, updateBookRow_low b price amount,
    ?_, ?_, ?_⟩
  · intro h l hh hl
    rw [updateBookRow_high] at hh
    rw [updateBookRow_low] at hl
    refine ⟨?_, ?_⟩
    · cases hl; exact min_le_right _ _
    · cases hh; exact le_max_right _ _
  · intro h h' hb hh
    rw [updateBookRow_high, hb] at hh
    cases hh; exact le_max_left _ _
  · intro l l' hb hl
    rw [updateBookRow_low, hb] at hl
    cases hl; exact min_le_left _ _

/-- C8, instantiated: a trade at price 7, amount 2 on a book with
`last=5, volume=10, high=6, low=4` yields `high=7`, the old high `6`
did not decrease past the new one, and `low=4 ≤ 7 = last`. -/
theorem claim_C8_order_book_update_witness :
    (updateBookRow (OrderBook.mk "BTC/USDT" (some 5) 10 (some 6) (some 4))
      7 2).high_24h = some 7 ∧
    (6 : ℚ) ≤ 7 ∧ (4 : ℚ) ≤ 7 := by
  have h := claim_C8_order_book_update
    (OrderBook.mk "BTC/USDT" (some 5) 10 (some 6) (some 4)) 7 2
  have hh : (updateBookRow
      (OrderBook.mk "BTC/USDT" (some 5) 10 (some 6) (some 4))
      7 2).high_24h = some 7 := by
    rw [h.2.2.1, Option.getD_some, max_eq_right (by norm_num)]
  have hl : (updateBookRow
      (OrderBook.mk "BTC/USDT" (some 5) 10 (some 6) (some 4))
      7 2).low_24h = some 4 := by
    rw [h.2.2.2.1, Option.getD_some, min_eq_left (by norm_num)]
  exact ⟨hh, h.2.2.2.2.2.1 6 7 rfl hh, (h.2.2.2.2.1 7 4 hh hl).1⟩

end Matching
